import Mathlib

/-!
Verification of the threshold Schnorr round state machines
(`src/protocols/threshold_schnorr/state_machine/{keygen,sign}/rounds.rs`).

The elliptic-curve group of secp256k1 is a cyclic group of prime order; we
embed it as the additive group `ZMod 97` (a faithful model of a prime-order
cyclic group for the structural and algebraic properties studied here), with
the generator `G = 1` and scalar multiplication given by ring multiplication.
Scalars (`FE`) live in the same prime field.  Randomness sampled inside the
Rust code (secret scalars, blinding factors, VSS polynomial coefficients) is
made an explicit argument of the corresponding Lean function.  Rust panics
(integer underflow, out-of-bounds indexing, `unwrap` on `None`) are modelled
by `Option`: a `none` result marks a reachable panic.
-/

namespace MPSchnorr

instance : Fact (Nat.Prime 97) := ⟨by norm_num⟩

/-- Scalar field of the curve (model: the 97-element prime field). -/
abbrev FE : Type := ZMod 97

/-- Curve group (model: the additive group of the 97-element prime field). -/
abbrev GE : Type := ZMod 97

/-- The fixed generator `G` of the curve group. -/
def curveG : GE := 1

/-- Scalar multiplication `s · P` on the curve group. -/
def pointMul (s : FE) (P : GE) : GE := s * P

/-- Modelled from the spec: the hash commitment
`comm = Hash(y_i ‖ decom)` of the commitment scheme
(`HashCommitment::create_commitment_with_user_defined_randomness`); the model
uses the injective pairing function, which is binding. -/
def hashCommitment (y : GE) (blind : Nat) : Nat := Nat.pair y.val blind

/-- Modelled from the spec: the Schnorr challenge `e = H(R ‖ Y ‖ m)`;
a concrete executable stand-in for the SHA-based hash-to-scalar. -/
def hashChallenge (r y : GE) (m : List Nat) : FE :=
  (r.val : FE) * 7 + (y.val : FE) * 11 + ((m.foldl (fun a b => a * 256 + b) 7 : Nat) : FE)

instance {e a : Type} [DecidableEq e] [DecidableEq a] : DecidableEq (Except e a)
  | .error x, .error y =>
    if h : x = y then .isTrue (by rw [h]) else .isFalse (fun hc => h (Except.error.inj hc))
  | .error _, .ok _ => .isFalse (fun hc => Except.noConfusion hc)
  | .ok _, .error _ => .isFalse (fun hc => Except.noConfusion hc)
  | .ok x, .ok y =>
    if h : x = y then .isTrue (by rw [h]) else .isFalse (fun hc => h (Except.ok.inj hc))

/-- Checked `usize` subtraction: Rust's `a - b` panics on underflow. -/
def checkedSub (a b : Nat) : Option Nat :=
  if b ≤ a then some (a - b) else none

/-- Feldman VSS parameters (`ShamirSecretSharing { threshold, share_count }`). -/
structure ShamirSecretSharing where
  threshold : Nat
  share_count : Nat
deriving DecidableEq

/-- `party_i::Parameters { threshold, share_count }`. -/
abbrev Parameters := ShamirSecretSharing

/-- Modelled from the spec: Feldman `VerifiableSS` — a public commitment
vector (one curve point per polynomial coefficient) plus the parameters. -/
structure VerifiableSS where
  parameters : ShamirSecretSharing
  commitments : List GE
deriving DecidableEq

/-- Modelled from the spec: evaluation of the committed polynomial in the
exponent at the point `index`: `Σ_j commitments[j] · index^j`. -/
def VerifiableSS.get_point_commitment (vss : VerifiableSS) (index : Nat) : GE :=
  (vss.commitments.enum.map (fun p => pointMul ((index : FE) ^ p.1) p.2)).sum

/-- Modelled from the spec: check that a public share image is consistent
with the commitment vector at point `index`. -/
def VerifiableSS.validate_share_public (vss : VerifiableSS) (ss_point : GE) (index : Nat) :
    Bool :=
  ss_point == vss.get_point_commitment index

/-- Modelled from the spec: check a scalar share against the commitment
vector (`validate_share` = `validate_share_public` on `G·share`). -/
def VerifiableSS.validate_share (vss : VerifiableSS) (share : FE) (index : Nat) : Bool :=
  vss.validate_share_public (pointMul share curveG) index

/-- Evaluation of the dealing polynomial `coeffs[0] + coeffs[1]·x + …`. -/
def evalPoly (coeffs : List FE) (x : FE) : FE :=
  (coeffs.enum.map (fun p => p.2 * x ^ p.1)).sum

/-- Modelled from the spec: Feldman dealing `share_at_indices` — a degree-`t`
polynomial with constant term `secret` and (explicitly supplied random)
higher coefficients `coeffs`; commitments are `G·a_j`, the share for index
`j` is the polynomial evaluated at `j`. -/
def share_at_indices (t n : Nat) (secret : FE) (coeffs : List FE) (index_vec : List Nat) :
    VerifiableSS × List FE :=
  let poly := secret :: coeffs
  (⟨⟨t, n⟩, poly.map (fun a => pointMul a curveG)⟩,
   index_vec.map (fun j => evalPoly poly (Nat.cast j)))

/-- Error kinds of the party-local crypto crate (`crate::Error`); the spec
calls `InvalidCom` “InvalidCommitment”. -/
inductive Error where
  | InvalidKey
  | InvalidSS
  | InvalidCom
  | InvalidSig
deriving DecidableEq

/-- Hash commitment broadcast body (`KeyGenBroadcastMessage1`). -/
structure KeyGenBroadcastMessage1 where
  com : Nat
deriving DecidableEq

/-- Per-party key material (`party_i::Keys`). -/
structure Keys where
  u_i : FE
  y_i : GE
  party_index : Nat
deriving DecidableEq

/-- Aggregated share and joint public key (`party_i::SharedKeys`). -/
structure SharedKeys where
  y : GE
  x_i : FE
deriving DecidableEq

/-- Modelled from the spec: `Keys::phase1_create(index)` — samples `u_i`
(here the explicit argument `u`), sets `y_i = G·u_i` and `party_index = index`. -/
def Keys.phase1_create (index : Nat) (u : FE) : Keys :=
  ⟨u, pointMul u curveG, index⟩

/-- Modelled from the spec: `Keys::phase1_broadcast` — samples a blinding
(here the explicit argument `blind`) and commits to `y_i`. -/
def Keys.phase1_broadcast (keys : Keys) (blind : Nat) : KeyGenBroadcastMessage1 × Nat :=
  (⟨hashCommitment keys.y_i blind⟩, blind)

/-- Modelled from the spec: `phase1_verify_com_phase2_distribute` — verify
every commitment/decommitment pair, then Feldman-deal the party's own `u_i`
at threshold `t` over the indices `parties` (the random higher coefficients
are the explicit argument `coeffs`); fail with `InvalidCom` on any mismatch. -/
def Keys.phase1_verify_com_phase2_distribute (keys : Keys) (params : Parameters)
    (blind_vec : List Nat) (y_vec : List GE) (bc1_vec : List KeyGenBroadcastMessage1)
    (parties : List Nat) (coeffs : List FE) :
    Except Error (VerifiableSS × List FE × Nat) :=
  let correct := (bc1_vec.zip (y_vec.zip blind_vec)).all
    (fun p => hashCommitment p.2.1 p.2.2 == p.1.com)
  if correct then
    let dealt := share_at_indices params.threshold params.share_count keys.u_i coeffs parties
    .ok (dealt.1, dealt.2, keys.party_index)
  else
    .error .InvalidCom

/-- Modelled from the spec: `phase2_verify_vss_construct_keypair` — validate
every received share against the sender's commitment vector at the party's
own (1-based) point; on success aggregate `x_i = Σ_j s_{j→i}` and
`Y = Σ_j y_j`; fail with `InvalidSS` otherwise. -/
def Keys.phase2_verify_vss_construct_keypair (_keys : Keys) (_params : Parameters)
    (y_vec : List GE) (secret_shares_vec : List FE) (vss_scheme_vec : List VerifiableSS)
    (index : Nat) : Except Error SharedKeys :=
  let correct := (vss_scheme_vec.zip secret_shares_vec).all
    (fun p => p.1.validate_share p.2 index)
  if correct then
    .ok ⟨y_vec.sum, secret_shares_vec.sum⟩
  else
    .error .InvalidSS

/-- Per-party local signature share (`party_i::LocalSig`). -/
structure LocalSig where
  gamma_i : FE
  e : FE
deriving DecidableEq

/-- Modelled from the spec: `LocalSig::compute` — the challenge
`e = H(R ‖ Y ‖ m)` and the share `gamma_i = r_i + e · x_i`, computed from the
ephemeral and the long-term `SharedKeys`. -/
def LocalSig.compute (message : List Nat) (local_ephemeral_key : SharedKeys)
    (local_private_key : SharedKeys) : LocalSig :=
  let e := hashChallenge local_ephemeral_key.y local_private_key.y message
  ⟨local_ephemeral_key.x_i + e * local_private_key.x_i, e⟩

/-- Final signature (`party_i::Signature { sigma, v }`). -/
structure Signature where
  sigma : FE
  v : GE
deriving DecidableEq

/-- Multiplicative inverse in the 97-element field, via Fermat's little
theorem (`a^(p-2)`); executable and kernel-reducible. -/
def fieldInv (a : FE) : FE := a ^ 95

/-- Modelled from the spec: Lagrange interpolation at zero of the shares
`shares` held at the 1-shifted points `indices.map (+1)` (the library's
`VerifiableSS::reconstruct`). -/
def reconstruct (indices : List Nat) (shares : List FE) : FE :=
  let pts : List FE := indices.map (fun i => (i : FE) + 1)
  ((pts.zip shares).map (fun p =>
    p.2 * ((pts.filter (fun x => x ≠ p.1)).foldl
      (fun acc xk => acc * (xk * fieldInv (xk - p.1))) 1))).sum

/-- Modelled from the spec: `Signature::generate(vss_sum, local_sigs,
parties_index_vec, v)` — Lagrange-interpolate the aggregated `sigma` from the
first `threshold+1` local `gamma_i` at the given subset, and return it
together with the point argument `v`. -/
def Signature.generate (vss_sum : VerifiableSS) (local_sig_vec : List LocalSig)
    (parties_index_vec : List Nat) (v : GE) : Signature :=
  let lim := vss_sum.parameters.threshold + 1
  ⟨reconstruct (parties_index_vec.take lim) ((local_sig_vec.map (fun l => l.gamma_i)).take lim),
   v⟩

/-- Wire envelope (`round_based::Msg`). -/
structure Msg (B : Type) where
  sender : Nat
  receiver : Option Nat
  body : B
deriving DecidableEq

/-- Modelled from the spec: a full broadcast inbox — the `n-1` peer messages
in ordinal order, together with the receiving party's own index. -/
structure BroadcastMsgs (B : Type) where
  my_ind : Nat
  msgs : List B
deriving DecidableEq

/-- Modelled from the spec: `into_vec_including_me` slots the caller's own
message at position `my_ind - 1` among the peers' messages. -/
def BroadcastMsgs.into_vec_including_me {B : Type} (input : BroadcastMsgs B) (me : B) :
    List B :=
  input.msgs.insertIdx (input.my_ind - 1) me

/-- Modelled from the spec: a full point-to-point inbox. -/
structure P2PMsgs (B : Type) where
  my_ind : Nat
  msgs : List B
deriving DecidableEq

/-- Modelled from the spec: `into_vec_including_me` for the P2P inbox. -/
def P2PMsgs.into_vec_including_me {B : Type} (input : P2PMsgs B) (me : B) : List B :=
  input.msgs.insertIdx (input.my_ind - 1) me

/-- Option-valued map: `some` of the image when `f` succeeds on every
element, `none` as soon as `f` fails (the Rust loop panics). -/
def mapOpt {α β : Type} (f : α → Option β) : List α → Option (List β)
  | [] => some []
  | x :: xs =>
    match f x with
    | none => none
    | some y =>
      match mapOpt f xs with
      | none => none
      | some ys => some (y :: ys)

/-- The share-distribution loop of keygen/sign `Round1::proceed`: one P2P
message per enumerated share, skipping the party's own index; `i` is the
running 0-based loop index. -/
def pushShares (party_i : Nat) (vss_scheme : VerifiableSS) :
    Nat → List FE → List (Msg (VerifiableSS × FE))
  | _, [] => []
  | i, share :: rest =>
    if i + 1 = party_i then pushShares party_i vss_scheme (i + 1) rest
    else ⟨party_i, some (i + 1), (vss_scheme, share)⟩ :: pushShares party_i vss_scheme (i + 1) rest

namespace Keygen

/-- Keygen phase-1 broadcast body (`BroadcastPhase1`). -/
structure BroadcastPhase1 where
  comm : KeyGenBroadcastMessage1
  decom : Nat
  y_i : GE
  index : Nat
deriving DecidableEq

/-- Keygen output (`LocalKey`). -/
structure LocalKey where
  shared_keys : SharedKeys
  vss_scheme : VerifiableSS
  vk_vec : List GE
  vss_scheme_vec : List VerifiableSS
  party_i : Nat
  t : Nat
  n : Nat
deriving DecidableEq

/-- `LocalKey::public_key`. -/
def LocalKey.public_key (lk : LocalKey) : GE := lk.shared_keys.y

/-- Keygen round errors (`keygen::rounds::ProceedError`). -/
inductive ProceedError where
  | Round0 (e : Error)
  | Round1 (e : Error)
  | Round2 (e : Error)
deriving DecidableEq

/-- Keygen `Round0` state. -/
structure Round0 where
  party_i : Nat
  t : Nat
  n : Nat
  parties : List Nat
deriving DecidableEq

/-- Keygen `Round1` state. -/
structure Round1 where
  keys : Keys
  mybroadcast : BroadcastPhase1
  party_i : Nat
  t : Nat
  n : Nat
  parties : List Nat
deriving DecidableEq

/-- Keygen `Round2` state. -/
structure Round2 where
  keys : Keys
  index : Nat
  own_vss : VerifiableSS
  own_share : FE
  y_vec : List GE
  party_i : Nat
  t : Nat
  n : Nat
  parties : List Nat
deriving DecidableEq

/-- Keygen `Round0::proceed`; the sampled secret `u` and blinding `blind`
are explicit arguments. -/
def Round0.proceed (st : Round0) (u : FE) (blind : Nat) :
    Option (Except ProceedError (Round1 × List (Msg BroadcastPhase1))) :=
  match checkedSub st.party_i 1 with
  | none => none
  | some idx =>
    let keys := Keys.phase1_create idx u
    let bc := keys.phase1_broadcast blind
    let mybroadcast : BroadcastPhase1 := ⟨bc.1, bc.2, keys.y_i, keys.party_index⟩
    some (.ok (⟨keys, mybroadcast, st.party_i, st.t, st.n, st.parties⟩,
      [⟨st.party_i, none, mybroadcast⟩]))

/-- Keygen `Round1::proceed`; the random dealing coefficients `coeffs` are an
explicit argument. -/
def Round1.proceed (st : Round1) (input : BroadcastMsgs BroadcastPhase1)
    (coeffs : List FE) :
    Option (Except ProceedError (Round2 × List (Msg (VerifiableSS × FE)))) :=
  let params : Parameters := ⟨st.t, st.n⟩
  let received_decom := input.into_vec_including_me st.mybroadcast
  let a := received_decom.map (fun m => m.comm)
  let b := received_decom.map (fun m => m.decom)
  let c := received_decom.map (fun m => m.y_i)
  let d := (received_decom.map (fun m => m.index)).map (fun i => i + 1)
  match st.keys.phase1_verify_com_phase2_distribute params b c a d coeffs with
  | .error e => some (.error (.Round1 e))
  | .ok (vss_scheme, secret_shares, index) =>
    let msgs := pushShares st.party_i vss_scheme 0 secret_shares
    match checkedSub st.party_i 1 with
    | none => none
    | some pi1 =>
      match secret_shares[pi1]? with
      | none => none
      | some own_share =>
        some (.ok (⟨st.keys, index, vss_scheme, own_share, c,
          st.party_i, st.t, st.n, st.parties⟩, msgs))

/-- Keygen `Round2::proceed`. -/
def Round2.proceed (st : Round2) (input : P2PMsgs (VerifiableSS × FE)) :
    Except ProceedError LocalKey :=
  let params : Parameters := ⟨st.t, st.n⟩
  let received_data := input.into_vec_including_me (st.own_vss, st.own_share)
  let a := received_data.map (fun p => p.1)
  let b := received_data.map (fun p => p.2)
  match st.keys.phase2_verify_vss_construct_keypair params st.y_vec b a (st.index + 1) with
  | .error e => .error (.Round2 e)
  | .ok shared_keys =>
    .ok ⟨shared_keys, st.own_vss, st.y_vec, a, st.party_i, st.t, st.n⟩

end Keygen

namespace Sign

/-- Sign round errors (`sign::rounds::ProceedError`). -/
inductive ProceedError where
  | Round0 (e : Error)
  | Round1 (e : Error)
  | Round2 (e : Error)
  | Round3 (e : Error)
  | Round4 (e : Error)
  | Round5 (e : Error)
deriving DecidableEq

/-- Sign `Round0` state. -/
structure Round0 where
  private_key : Keygen.LocalKey
  message : List Nat
  party_i : Nat
  t : Nat
  n : Nat
  parties : List Nat
deriving DecidableEq

/-- Sign `Round1` state. -/
structure Round1 where
  keys : Keys
  mybroadcast : Keygen.BroadcastPhase1
  private_key : Keygen.LocalKey
  message : List Nat
  party_i : Nat
  t : Nat
  n : Nat
  parties : List Nat
deriving DecidableEq

/-- Sign `Round2` state. -/
structure Round2 where
  keys : Keys
  index : Nat
  own_vss : VerifiableSS
  own_share : FE
  y_vec : List GE
  private_key : Keygen.LocalKey
  message : List Nat
  party_i : Nat
  t : Nat
  n : Nat
  parties : List Nat
deriving DecidableEq

/-- Sign `Round3` state. -/
structure Round3 where
  tmpkey : Keygen.LocalKey
  local_sig : LocalSig
  y_vec : List GE
  private_key : Keygen.LocalKey
  message : List Nat
  party_i : Nat
  t : Nat
  n : Nat
  parties : List Nat
deriving DecidableEq

/-- Sign `Round4` state. -/
structure Round4 where
  tmpkey : Keygen.LocalKey
  local_sig : LocalSig
  y_vec : List GE
  comm : GE
  local_sig_vec : List LocalSig
  private_key : Keygen.LocalKey
  message : List Nat
  party_i : Nat
  t : Nat
  n : Nat
  parties : List Nat
deriving DecidableEq

/-- Sign `Round5` state. -/
structure Round5 where
  tmpkey : Keygen.LocalKey
  local_sig : LocalSig
  y_vec : List GE
  own_result : Bool
  local_sig_vec : List LocalSig
  vss_sum : VerifiableSS
  private_key : Keygen.LocalKey
  message : List Nat
  party_i : Nat
  t : Nat
  n : Nat
  parties : List Nat
deriving DecidableEq

/-- Sign result (`SigRes`). -/
structure SigRes where
  signature : Signature
deriving DecidableEq

/-- Sign `Round0::proceed`; the fresh nonce `u` and blinding `blind` are
explicit arguments. -/
def Round0.proceed (st : Round0) (u : FE) (blind : Nat) :
    Option (Except ProceedError (Round1 × List (Msg Keygen.BroadcastPhase1))) :=
  match checkedSub st.party_i 1 with
  | none => none
  | some idx =>
    let keys := Keys.phase1_create idx u
    let bc := keys.phase1_broadcast blind
    let mybroadcast : Keygen.BroadcastPhase1 := ⟨bc.1, bc.2, keys.y_i, keys.party_index⟩
    some (.ok (⟨keys, mybroadcast, st.private_key, st.message,
      st.party_i, st.t, st.n, st.parties⟩,
      [⟨st.party_i, none, mybroadcast⟩]))

/-- Sign `Round1::proceed`; the random ephemeral dealing coefficients
`coeffs` are an explicit argument.  Note the resulting state's `parties` is
the vector `d` of received 0-based indices each incremented by one. -/
def Round1.proceed (st : Round1) (input : BroadcastMsgs Keygen.BroadcastPhase1)
    (coeffs : List FE) :
    Option (Except ProceedError (Round2 × List (Msg (VerifiableSS × FE)))) :=
  let params : Parameters := ⟨st.t, st.n⟩
  let received_decom := input.into_vec_including_me st.mybroadcast
  let a := received_decom.map (fun m => m.comm)
  let b := received_decom.map (fun m => m.decom)
  let c := received_decom.map (fun m => m.y_i)
  let d := (received_decom.map (fun m => m.index)).map (fun i => i + 1)
  match st.keys.phase1_verify_com_phase2_distribute params b c a d coeffs with
  | .error e => some (.error (.Round1 e))
  | .ok (vss_scheme, secret_shares, index) =>
    let msgs := pushShares st.party_i vss_scheme 0 secret_shares
    match checkedSub st.party_i 1 with
    | none => none
    | some pi1 =>
      match secret_shares[pi1]? with
      | none => none
      | some own_share =>
        some (.ok (⟨st.keys, index, vss_scheme, own_share, c, st.private_key, st.message,
          st.party_i, st.t, st.n, d⟩, msgs))

/-- Sign `Round2::proceed`. -/
def Round2.proceed (st : Round2) (input : P2PMsgs (VerifiableSS × FE)) :
    Except ProceedError (Round3 × List (Msg LocalSig)) :=
  let params : Parameters := ⟨st.t, st.n⟩
  let received_data := input.into_vec_including_me (st.own_vss, st.own_share)
  let a := received_data.map (fun p => p.1)
  let b := received_data.map (fun p => p.2)
  match st.keys.phase2_verify_vss_construct_keypair params st.y_vec b a (st.index + 1) with
  | .error e => .error (.Round2 e)
  | .ok shared_keys =>
    let local_sig := LocalSig.compute st.message shared_keys st.private_key.shared_keys
    let temp_key : Keygen.LocalKey :=
      ⟨shared_keys, st.own_vss, st.y_vec, a, st.party_i, st.t, st.n⟩
    .ok (⟨temp_key, local_sig, st.y_vec, st.private_key, st.message,
      st.party_i, st.t, st.n, st.parties⟩,
      [⟨st.party_i, none, local_sig⟩])

/-- Sign `Round3::proceed`: index every dealer's long-term and ephemeral
commitment vector at the fixed position `party_i - 1`, weight the long-term
entries by the challenge `e`, sum everything and broadcast the sum. -/
def Round3.proceed (st : Round3) (input : BroadcastMsgs LocalSig) :
    Option (Except ProceedError (Round4 × List (Msg GE))) :=
  let gamma_vec := input.into_vec_including_me st.local_sig
  let vss_private_keys := st.private_key.vss_scheme_vec
  let vss_ephemeral_keys := st.tmpkey.vss_scheme_vec
  match checkedSub st.party_i 1 with
  | none => none
  | some i =>
    match mapOpt (fun vss => (vss.commitments[i]?).bind
        (fun c => (gamma_vec[i]?).map (fun g => pointMul g.e c))) vss_private_keys with
    | none => none
    | some key_gen_comm_i_vec =>
      match mapOpt (fun vss => vss.commitments[i]?) vss_ephemeral_keys with
      | none => none
      | some eph_comm_i_vec =>
        match key_gen_comm_i_vec ++ eph_comm_i_vec with
        | [] => none
        | comm_i_0 :: rest =>
          let comm_to_broadcast := rest.foldl (fun acc x => acc + x) comm_i_0
          some (.ok (⟨st.tmpkey, st.local_sig, st.y_vec, comm_to_broadcast, gamma_vec,
            st.private_key, st.message, st.party_i, st.t, st.n, st.parties⟩,
            [⟨st.party_i, none, comm_to_broadcast⟩]))

/-- Sign `Round4::proceed`: build the synthetic `vss_sum` from the received
commitment points, validate `G·gamma_i` against it at `party_i`, broadcast
the boolean outcome. -/
def Round4.proceed (st : Round4) (input : BroadcastMsgs GE) :
    Except ProceedError (Round5 × List (Msg Bool)) :=
  let comm_vec := input.into_vec_including_me st.comm
  let vss_sum : VerifiableSS := ⟨st.private_key.vss_scheme.parameters, comm_vec⟩
  let gamma_i_g := pointMul st.local_sig.gamma_i curveG
  let validate_result := vss_sum.validate_share_public gamma_i_g st.party_i
  .ok (⟨st.tmpkey, st.local_sig, st.y_vec, validate_result, st.local_sig_vec, vss_sum,
    st.private_key, st.message, st.party_i, st.t, st.n, st.parties⟩,
    [⟨st.party_i, none, validate_result⟩])

/-- Sign `Round5::proceed`: fail with `Round5(InvalidSig)` if any broadcast
boolean is `false`, otherwise assemble the signature via
`Signature::generate` on `vss_sum`, the collected local sigs, the `parties`
vector carried in the state and `tmpkey.public_key()`. -/
def Round5.proceed (st : Round5) (input : BroadcastMsgs Bool) :
    Except ProceedError SigRes :=
  let comm_vec := input.into_vec_including_me st.own_result
  let res := comm_vec.all (fun x => x == true)
  if res = false then
    .error (.Round5 .InvalidSig)
  else
    .ok ⟨Signature.generate st.vss_sum st.local_sig_vec st.parties st.tmpkey.public_key⟩

end Sign

/-! Concrete instances used by the per-claim counterexamples and witnesses. -/

def c1Priv : Keygen.LocalKey :=
  ⟨⟨10, 7⟩, ⟨⟨1, 2⟩, [3, 5]⟩, [2, 9], [⟨⟨1, 2⟩, [3, 5]⟩, ⟨⟨1, 2⟩, [4, 6]⟩], 2, 1, 2⟩

def c1Tmp : Keygen.LocalKey :=
  ⟨⟨20, 3⟩, ⟨⟨1, 2⟩, [7, 2]⟩, [5, 15], [⟨⟨1, 2⟩, [7, 2]⟩, ⟨⟨1, 2⟩, [1, 8]⟩], 2, 1, 2⟩

def c1St3 : Sign.Round3 := ⟨c1Tmp, ⟨4, 2⟩, [2, 9], c1Priv, [1], 2, 1, 2, [1, 2]⟩

def c1In3 : BroadcastMsgs LocalSig := ⟨2, [⟨5, 2⟩]⟩

def c2Priv : Keygen.LocalKey :=
  ⟨⟨10, 7⟩, ⟨⟨1, 2⟩, [3, 5]⟩, [2, 9], [⟨⟨1, 2⟩, [3, 5]⟩, ⟨⟨1, 2⟩, [4, 6]⟩], 1, 1, 2⟩

def c2Tmp : Keygen.LocalKey :=
  ⟨⟨20, 3⟩, ⟨⟨1, 2⟩, [7, 2]⟩, [5, 15], [⟨⟨1, 2⟩, [7, 2]⟩, ⟨⟨1, 2⟩, [1, 8]⟩], 1, 1, 2⟩

def c2St3 : Sign.Round3 := ⟨c2Tmp, ⟨4, 2⟩, [2, 9], c2Priv, [1], 1, 1, 2, [1, 2]⟩

def c2In3 : BroadcastMsgs LocalSig := ⟨1, [⟨5, 2⟩]⟩

def c2St4 : Sign.Round4 :=
  ⟨c2Tmp, ⟨4, 2⟩, [2, 9], 22, [⟨4, 2⟩, ⟨5, 2⟩], c2Priv, [1], 1, 1, 2, [1, 2]⟩

def c2In4 : BroadcastMsgs GE := ⟨1, [32]⟩

def c2St5 : Sign.Round5 :=
  ⟨c2Tmp, ⟨4, 2⟩, [2, 9], false, [⟨4, 2⟩, ⟨5, 2⟩], ⟨⟨1, 2⟩, [22, 32]⟩,
   c2Priv, [1], 1, 1, 2, [1, 2]⟩

def c2In5 : BroadcastMsgs Bool := ⟨1, [true]⟩

def c3Keys : Keys := ⟨3, 3, 0⟩

def c3LK : Keygen.LocalKey := ⟨⟨5, 6⟩, ⟨⟨1, 2⟩, [1, 1]⟩, [1, 1], [⟨⟨1, 2⟩, [1, 1]⟩], 1, 1, 2⟩

def c3My : Keygen.BroadcastPhase1 := ⟨⟨hashCommitment 3 5⟩, 5, 3, 0⟩

def c3Peer : Keygen.BroadcastPhase1 := ⟨⟨hashCommitment 4 6⟩, 6, 4, 1⟩

def c3St1 : Sign.Round1 := ⟨c3Keys, c3My, c3LK, [1], 1, 1, 2, [7, 9]⟩

def c3In1 : BroadcastMsgs Keygen.BroadcastPhase1 := ⟨1, [c3Peer]⟩

def c3St2 : Sign.Round2 := ⟨c3Keys, 0, ⟨⟨1, 2⟩, [3, 2]⟩, 5, [3, 4], c3LK, [1], 1, 1, 2, [1, 2]⟩

def c3Msgs : List (Msg (VerifiableSS × FE)) := [⟨1, some 2, (⟨⟨1, 2⟩, [3, 2]⟩, 7)⟩]

def c4Priv : Keygen.LocalKey := ⟨⟨7, 10⟩, ⟨⟨1, 2⟩, [3, 5]⟩, [2, 9], [⟨⟨1, 2⟩, [3, 5]⟩], 2, 1, 2⟩

def c4Tmp : Keygen.LocalKey := ⟨⟨5, 20⟩, ⟨⟨1, 2⟩, [7, 2]⟩, [5, 15], [⟨⟨1, 2⟩, [7, 2]⟩], 2, 1, 2⟩

def c4St5 : Sign.Round5 :=
  ⟨c4Tmp, ⟨4, 2⟩, [2, 9], true, [⟨2, 0⟩, ⟨3, 0⟩], ⟨⟨1, 2⟩, [22, 32]⟩,
   c4Priv, [1], 2, 1, 2, [1, 2]⟩

def c4In5 : BroadcastMsgs Bool := ⟨2, [true]⟩

def c4In5b : BroadcastMsgs Bool := ⟨2, [false]⟩

def c5Keys : Keys := ⟨3, 3, 0⟩

def c5LK : Keygen.LocalKey := ⟨⟨5, 6⟩, ⟨⟨1, 2⟩, [1, 1]⟩, [1, 1], [⟨⟨1, 2⟩, [1, 1]⟩], 1, 1, 2⟩

def c5My : Keygen.BroadcastPhase1 := ⟨⟨hashCommitment 3 5⟩, 5, 3, 0⟩

def c5Peer : Keygen.BroadcastPhase1 := ⟨⟨hashCommitment 4 6⟩, 6, 4, 1⟩

def c5St1 : Sign.Round1 := ⟨c5Keys, c5My, c5LK, [1], 1, 1, 2, [1, 2]⟩

def c5In1 : BroadcastMsgs Keygen.BroadcastPhase1 := ⟨1, [c5Peer]⟩

def c5St2 : Sign.Round2 := ⟨c5Keys, 0, ⟨⟨1, 2⟩, [3, 2]⟩, 5, [3, 4], c5LK, [1], 1, 1, 2, [1, 2]⟩

def c5Msgs : List (Msg (VerifiableSS × FE)) := [⟨1, some 2, (⟨⟨1, 2⟩, [3, 2]⟩, 7)⟩]

def c5Priv : Keygen.LocalKey := ⟨⟨7, 10⟩, ⟨⟨1, 2⟩, [3, 5]⟩, [2, 9], [⟨⟨1, 2⟩, [3, 5]⟩], 2, 1, 2⟩

def c5Tmp : Keygen.LocalKey := ⟨⟨5, 20⟩, ⟨⟨1, 2⟩, [7, 2]⟩, [5, 15], [⟨⟨1, 2⟩, [7, 2]⟩], 2, 1, 2⟩

def c5St5 : Sign.Round5 :=
  ⟨c5Tmp, ⟨4, 2⟩, [2, 9], true, [⟨2, 0⟩, ⟨3, 0⟩], ⟨⟨1, 2⟩, [22, 32]⟩,
   c5Priv, [1], 2, 1, 2, [1, 2]⟩

def c5In5 : BroadcastMsgs Bool := ⟨2, [true]⟩

def c6Keys : Keys := ⟨3, 3, 0⟩

def c6My : Keygen.BroadcastPhase1 := ⟨⟨hashCommitment 3 5⟩, 5, 3, 0⟩

def c6MyBad : Keygen.BroadcastPhase1 := ⟨⟨hashCommitment 3 5 + 1⟩, 5, 3, 0⟩

def c6Peer : Keygen.BroadcastPhase1 := ⟨⟨hashCommitment 4 6⟩, 6, 4, 1⟩

def c6St1 : Keygen.Round1 := ⟨c6Keys, c6My, 1, 1, 2, [1, 2]⟩

def c6BadSt1 : Keygen.Round1 := ⟨c6Keys, c6MyBad, 1, 1, 2, [1, 2]⟩

def c6In1 : BroadcastMsgs Keygen.BroadcastPhase1 := ⟨1, [c6Peer]⟩

def c6St2 : Keygen.Round2 := ⟨c6Keys, 0, ⟨⟨1, 2⟩, [3, 2]⟩, 5, [3, 4], 1, 1, 2, [1, 2]⟩

def c6Msgs : List (Msg (VerifiableSS × FE)) := [⟨1, some 2, (⟨⟨1, 2⟩, [3, 2]⟩, 7)⟩]

def c7Priv : Keygen.LocalKey :=
  ⟨⟨10, 7⟩, ⟨⟨1, 2⟩, [3, 5]⟩, [2, 9], [⟨⟨1, 2⟩, [3, 5]⟩, ⟨⟨1, 2⟩, [4, 6]⟩], 1, 1, 2⟩

def c7Tmp : Keygen.LocalKey :=
  ⟨⟨20, 3⟩, ⟨⟨1, 2⟩, [7, 2]⟩, [5, 15], [⟨⟨1, 2⟩, [7, 2]⟩, ⟨⟨1, 2⟩, [1, 8]⟩], 1, 1, 2⟩

def c7St4 : Sign.Round4 :=
  ⟨c7Tmp, ⟨4, 2⟩, [2, 9], 22, [⟨4, 2⟩, ⟨5, 2⟩], c7Priv, [1], 1, 1, 2, [1, 2]⟩

def c7In4 : BroadcastMsgs GE := ⟨1, [32]⟩

def c8LK : Keygen.LocalKey := ⟨⟨5, 6⟩, ⟨⟨1, 2⟩, [1, 1]⟩, [1, 1], [⟨⟨1, 2⟩, [1, 1]⟩], 1, 1, 2⟩

def c8K0 : Keygen.Round0 := ⟨1, 1, 2, [1, 2]⟩

def c8S0 : Sign.Round0 := ⟨c8LK, [1], 1, 1, 2, [1, 2]⟩

def c9Priv : Keygen.LocalKey := ⟨⟨10, 7⟩, ⟨⟨1, 2⟩, [3, 5]⟩, [2, 9], [⟨⟨1, 2⟩, [3, 5]⟩], 3, 1, 2⟩

def c9Tmp : Keygen.LocalKey := ⟨⟨20, 3⟩, ⟨⟨1, 2⟩, [7, 2]⟩, [5, 15], [⟨⟨1, 2⟩, [7, 2]⟩], 3, 1, 2⟩

def c9Bad : Sign.Round3 := ⟨c9Tmp, ⟨4, 2⟩, [2, 9], c9Priv, [1], 3, 1, 2, [1, 2, 3]⟩

def c9BadIn : BroadcastMsgs LocalSig := ⟨3, []⟩

def c9Good : Sign.Round3 := ⟨c9Tmp, ⟨4, 2⟩, [2, 9], c9Priv, [1], 1, 1, 2, [1, 2]⟩

def c9GoodIn : BroadcastMsgs LocalSig := ⟨1, []⟩

def c10LK : Keygen.LocalKey := ⟨⟨5, 6⟩, ⟨⟨1, 2⟩, [1, 1]⟩, [1, 1], [⟨⟨1, 2⟩, [1, 1]⟩], 1, 1, 2⟩

def c10K0 : Keygen.Round0 := ⟨0, 1, 2, [1, 2]⟩

def c10S0 : Sign.Round0 := ⟨c10LK, [1], 0, 1, 2, [1, 2]⟩

def c10K0b : Keygen.Round0 := ⟨1, 1, 2, [1, 2]⟩

def c10S0b : Sign.Round0 := ⟨c10LK, [1], 1, 1, 2, [1, 2]⟩

/-! Helper lemmas about the embedding's list combinators. -/

theorem getElem?_insertIdx_self {α : Type} (l : List α) (n : Nat) (a : α)
    (h : n ≤ l.length) : (l.insertIdx n a)[n]? = some a := by
  have hlen : (l.insertIdx n a).length = l.length + 1 := List.length_insertIdx n l h
  have hlt : n < (l.insertIdx n a).length := by omega
  rw [List.getElem?_eq_getElem hlt]
  exact congrArg some (List.getElem_insertIdx_self l a n h)

theorem length_into_vec {B : Type} (input : BroadcastMsgs B) (me : B)
    (h : input.my_ind - 1 ≤ input.msgs.length) :
    (input.into_vec_including_me me).length = input.msgs.length + 1 := by
  unfold BroadcastMsgs.into_vec_including_me
  exact List.length_insertIdx _ _ h

theorem into_vec_own_slot {B : Type} (input : BroadcastMsgs B) (me : B)
    (h : input.my_ind - 1 ≤ input.msgs.length) :
    (input.into_vec_including_me me)[input.my_ind - 1]? = some me :=
  getElem?_insertIdx_self _ _ _ h

theorem mapOpt_eq_some_map {α β : Type} (f : α → Option β) (g : α → β) :
    ∀ (l : List α), (∀ a ∈ l, f a = some (g a)) → mapOpt f l = some (l.map g)
  | [], _ => rfl
  | x :: xs, h => by
    have hx : f x = some (g x) := h x (List.mem_cons_self x xs)
    have hxs : mapOpt f xs = some (xs.map g) :=
      mapOpt_eq_some_map f g xs (fun a ha => h a (List.mem_cons_of_mem x ha))
    simp [mapOpt, hx, hxs]

theorem mapOpt_eq_none {α β : Type} (f : α → Option β) :
    ∀ (l : List α) (a : α), a ∈ l → f a = none → mapOpt f l = none
  | x :: xs, a, ha, hfa => by
    rcases List.mem_cons.mp ha with h | h
    · subst h
      simp [mapOpt, hfa]
    · have : mapOpt f xs = none := mapOpt_eq_none f xs a h hfa
      simp [mapOpt, this]
      cases f x <;> simp

theorem foldl_add_eq_sum (c : GE) : ∀ (l : List GE),
    l.foldl (fun acc x => acc + x) c = c + l.sum
  | [] => by simp
  | x :: xs => by
    have := foldl_add_eq_sum (c + x) xs
    simp only [List.foldl_cons, this, List.sum_cons]
    ring

/-! Field-preservation lemmas: what each `proceed` does to the party
parameters carried in the state. -/

theorem keygenR0_fields (st : Keygen.Round0) (u : FE) (blind : Nat)
    (st1 : Keygen.Round1) (ms : List (Msg Keygen.BroadcastPhase1))
    (h : Keygen.Round0.proceed st u blind = some (.ok (st1, ms))) :
    st1.party_i = st.party_i ∧ st1.t = st.t ∧ st1.n = st.n ∧ st1.parties = st.parties := by
  unfold Keygen.Round0.proceed at h
  dsimp only at h
  repeat' split at h
  all_goals simp at h
  obtain ⟨h1, h2⟩ := h
  subst h1
  exact ⟨rfl, rfl, rfl, rfl⟩

theorem keygenR1_fields (st : Keygen.Round1) (input : BroadcastMsgs Keygen.BroadcastPhase1)
    (coeffs : List FE) (st2 : Keygen.Round2) (ms : List (Msg (VerifiableSS × FE)))
    (h : Keygen.Round1.proceed st input coeffs = some (.ok (st2, ms))) :
    st2.party_i = st.party_i ∧ st2.t = st.t ∧ st2.n = st.n ∧ st2.parties = st.parties := by
  unfold Keygen.Round1.proceed at h
  dsimp only at h
  repeat' split at h
  all_goals simp at h
  obtain ⟨h1, h2⟩ := h
  subst h1
  exact ⟨rfl, rfl, rfl, rfl⟩

theorem keygenR2_fields (st : Keygen.Round2) (input : P2PMsgs (VerifiableSS × FE))
    (lk : Keygen.LocalKey)
    (h : Keygen.Round2.proceed st input = .ok lk) :
    lk.party_i = st.party_i ∧ lk.t = st.t ∧ lk.n = st.n := by
  unfold Keygen.Round2.proceed at h
  dsimp only at h
  repeat' split at h
  all_goals simp at h
  subst h
  exact ⟨rfl, rfl, rfl⟩

theorem signR0_fields (st : Sign.Round0) (u : FE) (blind : Nat)
    (st1 : Sign.Round1) (ms : List (Msg Keygen.BroadcastPhase1))
    (h : Sign.Round0.proceed st u blind = some (.ok (st1, ms))) :
    st1.party_i = st.party_i ∧ st1.t = st.t ∧ st1.n = st.n ∧ st1.parties = st.parties := by
  unfold Sign.Round0.proceed at h
  dsimp only at h
  repeat' split at h
  all_goals simp at h
  obtain ⟨h1, h2⟩ := h
  subst h1
  exact ⟨rfl, rfl, rfl, rfl⟩

theorem signR1_fields (st : Sign.Round1) (input : BroadcastMsgs Keygen.BroadcastPhase1)
    (coeffs : List FE) (st2 : Sign.Round2) (ms : List (Msg (VerifiableSS × FE)))
    (h : Sign.Round1.proceed st input coeffs = some (.ok (st2, ms))) :
    st2.party_i = st.party_i ∧ st2.t = st.t ∧ st2.n = st.n ∧
      st2.parties = ((input.into_vec_including_me st.mybroadcast).map
        (fun m => m.index)).map (fun i => i + 1) := by
  unfold Sign.Round1.proceed at h
  dsimp only at h
  repeat' split at h
  all_goals simp at h
  obtain ⟨h1, h2⟩ := h
  subst h1
  refine ⟨rfl, rfl, rfl, ?_⟩
  simp

theorem signR2_fields (st : Sign.Round2) (input : P2PMsgs (VerifiableSS × FE))
    (st3 : Sign.Round3) (ms : List (Msg LocalSig))
    (h : Sign.Round2.proceed st input = .ok (st3, ms)) :
    st3.party_i = st.party_i ∧ st3.t = st.t ∧ st3.n = st.n ∧ st3.parties = st.parties := by
  unfold Sign.Round2.proceed at h
  dsimp only at h
  repeat' split at h
  all_goals simp at h
  obtain ⟨h1, h2⟩ := h
  subst h1
  exact ⟨rfl, rfl, rfl, rfl⟩

theorem signR3_fields (st : Sign.Round3) (input : BroadcastMsgs LocalSig)
    (st4 : Sign.Round4) (ms : List (Msg GE))
    (h : Sign.Round3.proceed st input = some (.ok (st4, ms))) :
    st4.party_i = st.party_i ∧ st4.t = st.t ∧ st4.n = st.n ∧ st4.parties = st.parties := by
  unfold Sign.Round3.proceed at h
  dsimp only at h
  repeat' split at h
  all_goals simp at h
  obtain ⟨h1, h2⟩ := h
  subst h1
  exact ⟨rfl, rfl, rfl, rfl⟩

theorem signR4_fields (st : Sign.Round4) (input : BroadcastMsgs GE)
    (st5 : Sign.Round5) (ms : List (Msg Bool))
    (h : Sign.Round4.proceed st input = .ok (st5, ms)) :
    st5.party_i = st.party_i ∧ st5.t = st.t ∧ st5.n = st.n ∧ st5.parties = st.parties := by
  unfold Sign.Round4.proceed at h
  dsimp only at h
  simp at h
  obtain ⟨h1, h2⟩ := h
  subst h1
  exact ⟨rfl, rfl, rfl, rfl⟩

/-! Round0 characterization lemmas. -/

theorem keygenR0_proceed_eq (st : Keygen.Round0) (u : FE) (blind : Nat)
    (h : 1 ≤ st.party_i) :
    Keygen.Round0.proceed st u blind = some (.ok (
      ⟨⟨u, pointMul u curveG, st.party_i - 1⟩,
       ⟨⟨hashCommitment (pointMul u curveG) blind⟩, blind, pointMul u curveG, st.party_i - 1⟩,
       st.party_i, st.t, st.n, st.parties⟩,
      [⟨st.party_i, none,
        ⟨⟨hashCommitment (pointMul u curveG) blind⟩, blind, pointMul u curveG,
         st.party_i - 1⟩⟩])) := by
  have hcs : checkedSub st.party_i 1 = some (st.party_i - 1) := by
    simp [checkedSub, h]
  unfold Keygen.Round0.proceed
  rw [hcs]
  rfl

theorem keygenR0_none (st : Keygen.Round0) (u : FE) (blind : Nat)
    (h : st.party_i = 0) :
    Keygen.Round0.proceed st u blind = none := by
  unfold Keygen.Round0.proceed
  have hcs : checkedSub st.party_i 1 = none := by
    simp [checkedSub, h]
  rw [hcs]

theorem signR0_proceed_eq (st : Sign.Round0) (u : FE) (blind : Nat)
    (h : 1 ≤ st.party_i) :
    Sign.Round0.proceed st u blind = some (.ok (
      ⟨⟨u, pointMul u curveG, st.party_i - 1⟩,
       ⟨⟨hashCommitment (pointMul u curveG) blind⟩, blind, pointMul u curveG, st.party_i - 1⟩,
       st.private_key, st.message, st.party_i, st.t, st.n, st.parties⟩,
      [⟨st.party_i, none,
        ⟨⟨hashCommitment (pointMul u curveG) blind⟩, blind, pointMul u curveG,
         st.party_i - 1⟩⟩])) := by
  have hcs : checkedSub st.party_i 1 = some (st.party_i - 1) := by
    simp [checkedSub, h]
  unfold Sign.Round0.proceed
  rw [hcs]
  rfl

theorem signR0_none (st : Sign.Round0) (u : FE) (blind : Nat)
    (h : st.party_i = 0) :
    Sign.Round0.proceed st u blind = none := by
  unfold Sign.Round0.proceed
  have hcs : checkedSub st.party_i 1 = none := by
    simp [checkedSub, h]
  rw [hcs]

/-! Round3 characterization lemmas. -/

theorem signR3_proceed_eq (st : Sign.Round3) (input : BroadcastMsgs LocalSig)
    (h1 : 1 ≤ st.party_i)
    (h2 : input.my_ind = st.party_i)
    (h3 : st.party_i - 1 ≤ input.msgs.length)
    (h4 : st.private_key.vss_scheme_vec ≠ [])
    (h5 : ∀ v ∈ st.private_key.vss_scheme_vec, st.party_i - 1 < v.commitments.length)
    (h6 : ∀ v ∈ st.tmpkey.vss_scheme_vec, st.party_i - 1 < v.commitments.length) :
    Sign.Round3.proceed st input = some (.ok (
      ⟨st.tmpkey, st.local_sig, st.y_vec,
       pointMul st.local_sig.e ((st.private_key.vss_scheme_vec.map
          (fun v => v.commitments.getD (st.party_i - 1) 0)).sum)
         + (st.tmpkey.vss_scheme_vec.map
          (fun v => v.commitments.getD (st.party_i - 1) 0)).sum,
       input.into_vec_including_me st.local_sig,
       st.private_key, st.message, st.party_i, st.t, st.n, st.parties⟩,
      [⟨st.party_i, none,
        pointMul st.local_sig.e ((st.private_key.vss_scheme_vec.map
           (fun v => v.commitments.getD (st.party_i - 1) 0)).sum)
          + (st.tmpkey.vss_scheme_vec.map
           (fun v => v.commitments.getD (st.party_i - 1) 0)).sum⟩])) := by
  have hcs : checkedSub st.party_i 1 = some (st.party_i - 1) := by
    simp [checkedSub, h1]
  have hγ : (input.into_vec_including_me st.local_sig)[st.party_i - 1]? = some st.local_sig := by
    have hown := into_vec_own_slot input st.local_sig (by rw [h2]; exact h3)
    rw [h2] at hown
    exact hown
  have hmap1 : mapOpt (fun vss => (vss.commitments[st.party_i - 1]?).bind
      (fun c => Option.map (fun g => pointMul g.e c)
        (input.into_vec_including_me st.local_sig)[st.party_i - 1]?))
      st.private_key.vss_scheme_vec
      = some (st.private_key.vss_scheme_vec.map
          (fun v => pointMul st.local_sig.e (v.commitments.getD (st.party_i - 1) 0))) := by
    apply mapOpt_eq_some_map
    intro v hv
    have hlt := h5 v hv
    rw [List.getElem?_eq_getElem hlt, hγ, List.getD_eq_getElem v.commitments 0 hlt]
    rfl
  have hmap2 : mapOpt (fun vss => vss.commitments[st.party_i - 1]?)
      st.tmpkey.vss_scheme_vec
      = some (st.tmpkey.vss_scheme_vec.map
          (fun v => v.commitments.getD (st.party_i - 1) 0)) := by
    apply mapOpt_eq_some_map
    intro v hv
    have hlt := h6 v hv
    rw [List.getElem?_eq_getElem hlt, List.getD_eq_getElem v.commitments 0 hlt]
  obtain ⟨v0, vtl, hl⟩ := List.exists_cons_of_ne_nil h4
  have key : ∀ (eph : List GE),
      List.foldl (fun acc x => acc + x)
          (pointMul st.local_sig.e (v0.commitments.getD (st.party_i - 1) 0))
          (List.map (fun v => pointMul st.local_sig.e
            (v.commitments.getD (st.party_i - 1) 0)) vtl ++ eph)
        = pointMul st.local_sig.e
            ((v0.commitments.getD (st.party_i - 1) 0 ::
              List.map (fun v => v.commitments.getD (st.party_i - 1) 0) vtl).sum)
          + eph.sum := by
    intro eph
    rw [foldl_add_eq_sum, List.sum_append]
    unfold pointMul
    rw [List.sum_map_mul_left vtl
      (fun v => v.commitments.getD (st.party_i - 1) 0) st.local_sig.e]
    rw [List.sum_cons, mul_add]
    ring
  unfold Sign.Round3.proceed
  rw [hcs]
  dsimp only
  rw [hmap1, hmap2]
  dsimp only
  rw [hl]
  dsimp only [List.map_cons, List.cons_append]
  rw [key]

theorem signR3_no_error (st : Sign.Round3) (input : BroadcastMsgs LocalSig)
    (r : Except Sign.ProceedError (Sign.Round4 × List (Msg GE)))
    (h : Sign.Round3.proceed st input = some r) :
    ∃ x, r = .ok x := by
  unfold Sign.Round3.proceed at h
  dsimp only at h
  repeat' split at h
  all_goals simp at h
  exact ⟨_, h.symm⟩

theorem signR3_none_of_short (st : Sign.Round3) (input : BroadcastMsgs LocalSig)
    (h1 : 1 ≤ st.party_i)
    (v : VerifiableSS)
    (hv : v ∈ st.private_key.vss_scheme_vec ++ st.tmpkey.vss_scheme_vec)
    (hshort : v.commitments.length ≤ st.party_i - 1) :
    Sign.Round3.proceed st input = none := by
  have hcs : checkedSub st.party_i 1 = some (st.party_i - 1) := by
    simp [checkedSub, h1]
  have hnone : v.commitments[st.party_i - 1]? = none :=
    List.getElem?_eq_none hshort
  unfold Sign.Round3.proceed
  rw [hcs]
  dsimp only
  rcases List.mem_append.mp hv with hmem | hmem
  · have : mapOpt (fun vss => (vss.commitments[st.party_i - 1]?).bind
        (fun c => Option.map (fun g => pointMul g.e c)
          (input.into_vec_including_me st.local_sig)[st.party_i - 1]?))
        st.private_key.vss_scheme_vec = none := by
      apply mapOpt_eq_none _ _ v hmem
      rw [hnone]
      rfl
    rw [this]
  · cases hm1 : mapOpt (fun vss => (vss.commitments[st.party_i - 1]?).bind
        (fun c => Option.map (fun g => pointMul g.e c)
          (input.into_vec_including_me st.local_sig)[st.party_i - 1]?))
        st.private_key.vss_scheme_vec with
    | none => rfl
    | some l1 =>
      have : mapOpt (fun vss => vss.commitments[st.party_i - 1]?)
          st.tmpkey.vss_scheme_vec = none :=
        mapOpt_eq_none _ _ v hmem hnone
      rw [this]

theorem pushShares_mem (p : Nat) (vss : VerifiableSS) :
    ∀ (shares : List FE) (s : Nat) (m : Msg (VerifiableSS × FE)),
      m ∈ pushShares p vss s shares →
      m.sender = p ∧ ∃ j, m.receiver = some j ∧ s + 1 ≤ j ∧ j ≤ s + shares.length ∧
        j ≠ p ∧ m.body = (vss, shares.getD (j - 1 - s) 0)
  | x :: xs, s, m, hm => by
    by_cases hp : s + 1 = p
    · have hm' : m ∈ pushShares p vss (s + 1) xs := by
        simpa [pushShares, hp] using hm
      obtain ⟨hs, j, hr, hj1, hj2, hjp, hb⟩ := pushShares_mem p vss xs (s + 1) m hm'
      refine ⟨hs, j, hr, by omega, by simp; omega, hjp, ?_⟩
      rw [hb]
      have h1 : j - 1 - s = (j - 1 - (s + 1)) + 1 := by omega
      rw [h1]
      rfl
    · rw [pushShares, if_neg hp] at hm
      rcases List.mem_cons.mp hm with h | h
      · subst h
        exact ⟨rfl, s + 1, rfl, le_refl _, by simp, hp, by simp⟩
      · obtain ⟨hs, j, hr, hj1, hj2, hjp, hb⟩ := pushShares_mem p vss xs (s + 1) m h
        refine ⟨hs, j, hr, by omega, by simp; omega, hjp, ?_⟩
        rw [hb]
        have h1 : j - 1 - s = (j - 1 - (s + 1)) + 1 := by omega
        rw [h1]
        rfl

theorem pushShares_length (p : Nat) (vss : VerifiableSS) :
    ∀ (shares : List FE) (s : Nat),
      (pushShares p vss s shares).length =
        if s + 1 ≤ p ∧ p ≤ s + shares.length then shares.length - 1 else shares.length
  | [], s => by
    simp only [pushShares, List.length_nil]
    have : ¬(s + 1 ≤ p ∧ p ≤ s + 0) := by omega
    simp [this]
  | x :: xs, s => by
    have ih := pushShares_length p vss xs (s + 1)
    by_cases hp : s + 1 = p
    · rw [pushShares, if_pos hp, ih]
      simp only [List.length_cons]
      split_ifs <;> omega
    · rw [pushShares, if_neg hp]
      simp only [List.length_cons, ih]
      split_ifs <;> omega

theorem pushShares_filter_receiver (p : Nat) (vss : VerifiableSS) :
    ∀ (shares : List FE) (s j : Nat), s + 1 ≤ j → j ≤ s + shares.length → j ≠ p →
      (pushShares p vss s shares).filter (fun m => m.receiver == some j) =
        [⟨p, some j, (vss, shares.getD (j - 1 - s) 0)⟩]
  | [], s, j, hj1, hj2, _ => by
    simp only [List.length_nil] at hj2
    omega
  | x :: xs, s, j, hj1, hj2, hjp => by
    by_cases hp : s + 1 = p
    · have hj1' : s + 1 + 1 ≤ j := by omega
      have hj2' : j ≤ s + 1 + xs.length := by
        simp only [List.length_cons] at hj2
        omega
      have ih := pushShares_filter_receiver p vss xs (s + 1) j hj1' hj2' hjp
      rw [pushShares, if_pos hp, ih]
      have h1 : j - 1 - s = (j - 1 - (s + 1)) + 1 := by omega
      rw [h1]
      rfl
    · rw [pushShares, if_neg hp]
      by_cases hj : j = s + 1
      · subst hj
        have hrec : (pushShares p vss (s + 1) xs).filter
            (fun m => m.receiver == some (s + 1)) = [] := by
          rw [List.filter_eq_nil_iff]
          intro m hm
          obtain ⟨_, j', hr, hj1', _, _, _⟩ := pushShares_mem p vss xs (s + 1) m hm
          simp [hr]
          omega
        rw [List.filter_cons_of_pos (by simp), hrec]
        simp
      · have hj1' : s + 1 + 1 ≤ j := by omega
        have hj2' : j ≤ s + 1 + xs.length := by
          simp only [List.length_cons] at hj2
          omega
        have ih := pushShares_filter_receiver p vss xs (s + 1) j hj1' hj2' hjp
        rw [List.filter_cons_of_neg (by simp; omega), ih]
        have h1 : j - 1 - s = (j - 1 - (s + 1)) + 1 := by omega
        rw [h1]
        rfl

/-! Keygen Round1 characterization lemmas. -/

theorem keygenR1_msgs (st : Keygen.Round1) (input : BroadcastMsgs Keygen.BroadcastPhase1)
    (coeffs : List FE) (st2 : Keygen.Round2) (msgs : List (Msg (VerifiableSS × FE)))
    (hp1 : 1 ≤ st.party_i) (hpn : st.party_i ≤ st.n)
    (hmi : input.my_ind = st.party_i) (hfull : input.msgs.length + 1 = st.n)
    (hok : Keygen.Round1.proceed st input coeffs = some (.ok (st2, msgs))) :
    ∃ secret_shares : List FE,
      st.keys.phase1_verify_com_phase2_distribute ⟨st.t, st.n⟩
        ((input.into_vec_including_me st.mybroadcast).map (fun m => m.decom))
        ((input.into_vec_including_me st.mybroadcast).map (fun m => m.y_i))
        ((input.into_vec_including_me st.mybroadcast).map (fun m => m.comm))
        (((input.into_vec_including_me st.mybroadcast).map (fun m => m.index)).map
          (fun i => i + 1))
        coeffs = .ok (st2.own_vss, secret_shares, st2.index) ∧
      secret_shares.length = st.n ∧
      st2.own_share = secret_shares.getD (st.party_i - 1) 0 ∧
      msgs = pushShares st.party_i st2.own_vss 0 secret_shares ∧
      msgs.length = st.n - 1 ∧
      (∀ m ∈ msgs, m.sender = st.party_i ∧ m.receiver ≠ some st.party_i ∧
        m.receiver ≠ none) ∧
      (∀ j, 1 ≤ j → j ≤ st.n → j ≠ st.party_i →
        msgs.filter (fun m => m.receiver == some j)
          = [⟨st.party_i, some j, (st2.own_vss, secret_shares.getD (j - 1) 0)⟩]) := by
  have hslot : input.my_ind - 1 ≤ input.msgs.length := by
    rw [hmi]
    omega
  have hveclen : (input.into_vec_including_me st.mybroadcast).length
      = input.msgs.length + 1 := length_into_vec input st.mybroadcast hslot
  unfold Keygen.Round1.proceed at hok
  dsimp only at hok
  split at hok
  · simp at hok
  · rename_i x vss shares idx heq
    split at hok
    · simp at hok
    · rename_i y pi1 heq2
      split at hok
      · simp at hok
      · rename_i z own heq3
        simp only [Option.some.injEq, Except.ok.injEq, Prod.mk.injEq] at hok
        obtain ⟨hst2, hmsgs⟩ := hok
        subst hst2
        simp only [checkedSub] at heq2
        rw [if_pos hp1] at heq2
        simp only [Option.some.injEq] at heq2
        subst heq2
        have hlen : shares.length = st.n := by
          have heq' := heq
          unfold Keys.phase1_verify_com_phase2_distribute at heq'
          dsimp only at heq'
          split at heq'
          · simp only [Except.ok.injEq, Prod.mk.injEq] at heq'
            obtain ⟨hv, hs, hi⟩ := heq'
            have hform : shares = List.map
                (fun j : Nat => evalPoly (st.keys.u_i :: coeffs) (Nat.cast j))
                (List.map (fun i : Nat => i + 1) (List.map (fun m => m.index)
                  (input.into_vec_including_me st.mybroadcast))) := by
              rw [← hs]
              rfl
            rw [hform, List.length_map, List.length_map, List.length_map, hveclen, hfull]
          · simp at heq'
        refine ⟨shares, heq, hlen, ?_, hmsgs.symm, ?_, ?_, ?_⟩
        · rw [List.getD_eq_getElem shares 0 (by omega)]
          rw [List.getElem?_eq_getElem (by omega : st.party_i - 1 < shares.length)] at heq3
          simp only [Option.some.injEq] at heq3
          exact heq3.symm
        · rw [← hmsgs, pushShares_length]
          rw [hlen]
          simp [hp1, hpn]
        · intro m hm
          rw [← hmsgs] at hm
          obtain ⟨hs, j, hr, _, _, hjp, _⟩ := pushShares_mem _ _ _ _ _ hm
          exact ⟨hs, by rw [hr]; simp [hjp], by rw [hr]; simp⟩
        · intro j hj1 hjn hjp
          rw [← hmsgs]
          have := pushShares_filter_receiver st.party_i vss shares 0 j
            (by omega) (by omega) hjp
          simpa using this

theorem keygenR1_invalid_com (st : Keygen.Round1)
    (input : BroadcastMsgs Keygen.BroadcastPhase1) (coeffs : List FE)
    (hbad : ((((input.into_vec_including_me st.mybroadcast).map (fun m => m.comm)).zip
        ((((input.into_vec_including_me st.mybroadcast).map (fun m => m.y_i))).zip
          (((input.into_vec_including_me st.mybroadcast).map (fun m => m.decom))))).all
        (fun p => hashCommitment p.2.1 p.2.2 == p.1.com)) = false) :
    Keygen.Round1.proceed st input coeffs = some (.error (.Round1 .InvalidCom)) := by
  unfold Keygen.Round1.proceed
  dsimp only
  have hcall : st.keys.phase1_verify_com_phase2_distribute ⟨st.t, st.n⟩
      ((input.into_vec_including_me st.mybroadcast).map (fun m => m.decom))
      ((input.into_vec_including_me st.mybroadcast).map (fun m => m.y_i))
      ((input.into_vec_including_me st.mybroadcast).map (fun m => m.comm))
      (((input.into_vec_including_me st.mybroadcast).map (fun m => m.index)).map
        (fun i => i + 1))
      coeffs = .error .InvalidCom := by
    unfold Keys.phase1_verify_com_phase2_distribute
    dsimp only
    rw [hbad]
    rfl
  rw [hcall]

/-! Round5 boolean-aggregation lemmas. -/

theorem round5_all_false_iff (l : List Bool) :
    (l.all (fun x => x == true) = false) ↔ false ∈ l := by
  rw [List.all_eq_false]
  constructor
  · rintro ⟨x, hx, hnx⟩
    cases x
    · exact hx
    · simp at hnx
  · intro hf
    exact ⟨false, hf, by simp⟩

theorem signR5_ok (st : Sign.Round5) (input : BroadcastMsgs Bool)
    (h : false ∉ input.into_vec_including_me st.own_result) :
    Sign.Round5.proceed st input =
      .ok ⟨Signature.generate st.vss_sum st.local_sig_vec st.parties
        st.tmpkey.public_key⟩ := by
  unfold Sign.Round5.proceed
  have hall : (input.into_vec_including_me st.own_result).all (fun x => x == true) = true := by
    cases hres : (input.into_vec_including_me st.own_result).all (fun x => x == true)
    · exact absurd ((round5_all_false_iff _).mp hres) h
    · rfl
  simp [hall]
  exact h

theorem signR5_err (st : Sign.Round5) (input : BroadcastMsgs Bool)
    (h : false ∈ input.into_vec_including_me st.own_result) :
    Sign.Round5.proceed st input = .error (.Round5 .InvalidSig) := by
  unfold Sign.Round5.proceed
  have hall := (round5_all_false_iff (input.into_vec_including_me st.own_result)).mpr h
  simp [hall]
  exact h


theorem signR5_ok_inv (st : Sign.Round5) (input : BroadcastMsgs Bool) (res : Sign.SigRes)
    (h : Sign.Round5.proceed st input = .ok res) :
    res = ⟨Signature.generate st.vss_sum st.local_sig_vec st.parties
      st.tmpkey.public_key⟩ := by
  unfold Sign.Round5.proceed at h
  dsimp only at h
  split at h
  · simp at h
  · simp only [Except.ok.injEq] at h
    exact h.symm

/-! The claims. -/

/-- C1 (amended): in sign Round3, for every state and full broadcast input of
LocalSigs (party index at least 1, the store wired to this party, every
dealer's commitment vector long enough, at least one long-term dealer),
`proceed` broadcasts exactly one point
`C_i = e · (Σ_k C_long^(k)[party_i−1]) + (Σ_k C_eph^(k)[party_i−1])`, where
`[party_i−1]` is the *entry* of dealer k's commitment vector at this party's
0-based position (a coefficient commitment), the long-term side weighted by
the challenge `e` of this party's LocalSig and the ephemeral side unweighted. -/
theorem claim1_round3_broadcasts_indexed_sum (st : Sign.Round3)
    (input : BroadcastMsgs LocalSig)
    (h1 : 1 ≤ st.party_i)
    (h2 : input.my_ind = st.party_i)
    (h3 : st.party_i - 1 ≤ input.msgs.length)
    (h4 : st.private_key.vss_scheme_vec ≠ [])
    (h5 : ∀ v ∈ st.private_key.vss_scheme_vec, st.party_i - 1 < v.commitments.length)
    (h6 : ∀ v ∈ st.tmpkey.vss_scheme_vec, st.party_i - 1 < v.commitments.length) :
    Sign.Round3.proceed st input = some (.ok (
      ⟨st.tmpkey, st.local_sig, st.y_vec,
       pointMul st.local_sig.e ((st.private_key.vss_scheme_vec.map
          (fun v => v.commitments.getD (st.party_i - 1) 0)).sum)
         + (st.tmpkey.vss_scheme_vec.map
          (fun v => v.commitments.getD (st.party_i - 1) 0)).sum,
       input.into_vec_including_me st.local_sig,
       st.private_key, st.message, st.party_i, st.t, st.n, st.parties⟩,
      [⟨st.party_i, none,
        pointMul st.local_sig.e ((st.private_key.vss_scheme_vec.map
           (fun v => v.commitments.getD (st.party_i - 1) 0)).sum)
          + (st.tmpkey.vss_scheme_vec.map
           (fun v => v.commitments.getD (st.party_i - 1) 0)).sum⟩])) :=
  signR3_proceed_eq st input h1 h2 h3 h4 h5 h6

/-- C1 counterexample to the claim as stated: at a concrete Round3 state the
broadcast point (32) is the sum of commitment-vector *entries* at position
`party_i − 1`, and differs from the value the claim's gloss describes — the
points the commitment vectors *evaluate* to at this party's position
(whether the evaluation point is taken as `party_i` or `party_i − 1`). -/
theorem claim1_counterexample :
    Sign.Round3.proceed c1St3 c1In3 = some (.ok (
      ⟨c1Tmp, ⟨4, 2⟩, [2, 9], 32, [⟨5, 2⟩, ⟨4, 2⟩], c1Priv, [1], 2, 1, 2, [1, 2]⟩,
      [⟨2, none, (32 : GE)⟩])) ∧
    (32 : GE) ≠ pointMul c1St3.local_sig.e ((c1St3.private_key.vss_scheme_vec.map
        (fun v => v.get_point_commitment c1St3.party_i)).sum)
      + (c1St3.tmpkey.vss_scheme_vec.map
        (fun v => v.get_point_commitment c1St3.party_i)).sum ∧
    (32 : GE) ≠ pointMul c1St3.local_sig.e ((c1St3.private_key.vss_scheme_vec.map
        (fun v => v.get_point_commitment (c1St3.party_i - 1))).sum)
      + (c1St3.tmpkey.vss_scheme_vec.map
        (fun v => v.get_point_commitment (c1St3.party_i - 1))).sum := by
  refine ⟨by decide, by decide, by decide⟩

/-- C1 witness: the amended theorem applied at a concrete state and input. -/
theorem claim1_witness : (Sign.Round3.proceed c1St3 c1In3).isSome = true := by
  rw [claim1_round3_broadcasts_indexed_sum c1St3 c1In3 (by decide) (by decide) (by decide)
    (by decide) (by decide) (by decide)]
  rfl

/-- C2 (amended): sign Round3 cannot fail with InvalidSS — whenever its
`proceed` returns (does not panic), the result is `Ok`, for every state and
full broadcast input, including inputs whose summed local-sig check fails;
such a failure is instead caught by the Round4 boolean and surfaces as
`Round5(InvalidSig)`. -/
theorem claim2_round3_never_errors (st : Sign.Round3) (input : BroadcastMsgs LocalSig)
    (r : Except Sign.ProceedError (Sign.Round4 × List (Msg GE)))
    (h : Sign.Round3.proceed st input = some r) : ∃ x, r = .ok x :=
  signR3_no_error st input r h

/-- C2 counterexample to the claim as stated: a concrete full broadcast input
with a tampered `gamma_i` whose summed local-sig check fails — Round3 still
succeeds (broadcasting the expected commitment), Round4's local check comes
out `false`, and the failure surfaces only in Round5 as `Round5(InvalidSig)`,
not as an InvalidSS error in Round3. -/
theorem claim2_counterexample :
    Sign.Round3.proceed c2St3 c2In3 = some (.ok (c2St4, [⟨1, none, (22 : GE)⟩])) ∧
    Sign.Round4.proceed c2St4 c2In4 = .ok (c2St5, [⟨1, none, false⟩]) ∧
    Sign.Round5.proceed c2St5 c2In5 = .error (.Round5 .InvalidSig) := by
  refine ⟨by decide, by decide, by decide⟩

/-- C2 witness: the amended theorem applied at the concrete tampered input. -/
theorem claim2_witness :
    ∃ x, (Except.ok (c2St4, [(⟨1, none, (22 : GE)⟩ : Msg GE)])
      : Except Sign.ProceedError (Sign.Round4 × List (Msg GE))) = .ok x :=
  claim2_round3_never_errors c2St3 c2In3 _ (by decide)

/-- C3 (amended): `party_i`, `t` and `n` are carried unchanged by every round
transition of both machines (keygen Round0→Round1→Round2→LocalKey, sign
Round0→…→Round5); `parties` is carried unchanged by every transition *except*
sign Round1→Round2, which replaces it with the received broadcast 0-based
indices each incremented by one. -/
theorem claim3_params_carried :
    (∀ (st : Keygen.Round0) (u : FE) (blind : Nat) st1 ms,
      Keygen.Round0.proceed st u blind = some (.ok (st1, ms)) →
      st1.party_i = st.party_i ∧ st1.t = st.t ∧ st1.n = st.n ∧ st1.parties = st.parties) ∧
    (∀ (st : Keygen.Round1) input coeffs st2 ms,
      Keygen.Round1.proceed st input coeffs = some (.ok (st2, ms)) →
      st2.party_i = st.party_i ∧ st2.t = st.t ∧ st2.n = st.n ∧ st2.parties = st.parties) ∧
    (∀ (st : Keygen.Round2) input lk,
      Keygen.Round2.proceed st input = .ok lk →
      lk.party_i = st.party_i ∧ lk.t = st.t ∧ lk.n = st.n) ∧
    (∀ (st : Sign.Round0) (u : FE) (blind : Nat) st1 ms,
      Sign.Round0.proceed st u blind = some (.ok (st1, ms)) →
      st1.party_i = st.party_i ∧ st1.t = st.t ∧ st1.n = st.n ∧ st1.parties = st.parties) ∧
    (∀ (st : Sign.Round1) input coeffs st2 ms,
      Sign.Round1.proceed st input coeffs = some (.ok (st2, ms)) →
      st2.party_i = st.party_i ∧ st2.t = st.t ∧ st2.n = st.n ∧
        st2.parties = ((input.into_vec_including_me st.mybroadcast).map
          (fun m => m.index)).map (fun i => i + 1)) ∧
    (∀ (st : Sign.Round2) input st3 ms,
      Sign.Round2.proceed st input = .ok (st3, ms) →
      st3.party_i = st.party_i ∧ st3.t = st.t ∧ st3.n = st.n ∧ st3.parties = st.parties) ∧
    (∀ (st : Sign.Round3) input st4 ms,
      Sign.Round3.proceed st input = some (.ok (st4, ms)) →
      st4.party_i = st.party_i ∧ st4.t = st.t ∧ st4.n = st.n ∧ st4.parties = st.parties) ∧
    (∀ (st : Sign.Round4) input st5 ms,
      Sign.Round4.proceed st input = .ok (st5, ms) →
      st5.party_i = st.party_i ∧ st5.t = st.t ∧ st5.n = st.n ∧ st5.parties = st.parties) :=
  ⟨keygenR0_fields, keygenR1_fields, keygenR2_fields, signR0_fields,
   signR1_fields, signR2_fields, signR3_fields, signR4_fields⟩

/-- C3 counterexample to the claim as stated: a concrete sign Round1
transition (commitment checks passing) whose resulting state's `parties`
vector `[1, 2]` differs from the `[7, 9]` the machine was started with. -/
theorem claim3_counterexample :
    Sign.Round1.proceed c3St1 c3In1 [2] = some (.ok (c3St2, c3Msgs)) ∧
    c3St2.parties ≠ c3St1.parties := by
  refine ⟨by decide, by decide⟩

/-- C3 witness: the sign Round1 conjunct applied at a concrete transition. -/
theorem claim3_witness :
    c3St2.party_i = c3St1.party_i ∧ c3St2.t = c3St1.t ∧ c3St2.n = c3St1.n ∧
      c3St2.parties = ((c3In1.into_vec_including_me c3St1.mybroadcast).map
        (fun m => m.index)).map (fun i => i + 1) :=
  claim3_params_carried.2.2.2.2.1 c3St1 c3In1 [2] c3St2 c3Msgs (by decide)

/-- C4 (amended): sign Round5's `proceed` returns `Round5(InvalidSig)` iff at
least one of the n booleans (peers' broadcast results with the party's own
slotted in) is false; when all are true it returns `Ok` with the signature
produced by `Signature::generate` from `vss_sum`, the collected LocalSigs,
the signer subset carried in the state, and `tmpkey.public_key()` — the
*ephemeral* aggregate point `R`, not the long-term joint public key `Y`. -/
theorem claim4_round5_invalid_sig_iff (st : Sign.Round5) (input : BroadcastMsgs Bool) :
    (Sign.Round5.proceed st input = .error (.Round5 .InvalidSig) ↔
      false ∈ input.into_vec_including_me st.own_result) ∧
    (false ∉ input.into_vec_including_me st.own_result →
      Sign.Round5.proceed st input =
        .ok ⟨Signature.generate st.vss_sum st.local_sig_vec st.parties
          st.tmpkey.public_key⟩) := by
  constructor
  · constructor
    · intro herr
      by_contra hmem
      rw [signR5_ok st input hmem] at herr
      simp at herr
    · exact signR5_err st input
  · exact signR5_ok st input

set_option maxRecDepth 8192 in
/-- C4 counterexample to the claim as stated: at a concrete all-true Round5
state the produced signature carries `tmpkey.public_key()` (the ephemeral
aggregate, 5) and is *not* the signature generated from the long-term joint
public key (`private_key.public_key()` = 7). -/
theorem claim4_counterexample :
    Sign.Round5.proceed c4St5 c4In5 =
      .ok ⟨Signature.generate c4St5.vss_sum c4St5.local_sig_vec c4St5.parties
        c4St5.tmpkey.public_key⟩ ∧
    Sign.Round5.proceed c4St5 c4In5 ≠
      .ok ⟨Signature.generate c4St5.vss_sum c4St5.local_sig_vec c4St5.parties
        c4St5.private_key.public_key⟩ := by
  refine ⟨by decide, by decide⟩

/-- C4 witness: the iff applied at a concrete input containing a false. -/
theorem claim4_witness :
    Sign.Round5.proceed c4St5 c4In5b = .error (.Round5 .InvalidSig) :=
  (claim4_round5_invalid_sig_iff c4St5 c4In5b).1.mpr (by decide)

/-- C5 (amended): the signer-subset argument sign Round5 passes to
`Signature::generate` is the `parties` list carried in its state; a run sets
that list in Round1 to the received broadcast 0-based indices each
incremented by one (a 1-based list), and Rounds 2–4 carry it unchanged — it
is not the 0-based signer index list. -/
theorem claim5_generate_parties_argument :
    (∀ (st : Sign.Round5) input res, Sign.Round5.proceed st input = .ok res →
      res = ⟨Signature.generate st.vss_sum st.local_sig_vec st.parties
        st.tmpkey.public_key⟩) ∧
    (∀ (st : Sign.Round1) input coeffs st2 ms,
      Sign.Round1.proceed st input coeffs = some (.ok (st2, ms)) →
      st2.parties = ((input.into_vec_including_me st.mybroadcast).map
        (fun m => m.index)).map (fun i => i + 1)) ∧
    (∀ (st : Sign.Round2) input st3 ms,
      Sign.Round2.proceed st input = .ok (st3, ms) → st3.parties = st.parties) ∧
    (∀ (st : Sign.Round3) input st4 ms,
      Sign.Round3.proceed st input = some (.ok (st4, ms)) → st4.parties = st.parties) ∧
    (∀ (st : Sign.Round4) input st5 ms,
      Sign.Round4.proceed st input = .ok (st5, ms) → st5.parties = st.parties) :=
  ⟨signR5_ok_inv,
   fun st input coeffs st2 ms h => (signR1_fields st input coeffs st2 ms h).2.2.2,
   fun st input st3 ms h => (signR2_fields st input st3 ms h).2.2.2,
   fun st input st4 ms h => (signR3_fields st input st4 ms h).2.2.2,
   fun st input st5 ms h => (signR4_fields st input st5 ms h).2.2.2⟩

set_option maxRecDepth 8192 in
/-- C5 counterexample to the claim as stated: a concrete run sets `parties`
to the 1-based list `[1, 2]` (the broadcast 0-based indices `[0, 1]` each
plus one), and at Round5 the signature generated from `[1, 2]` differs from
the one the 0-based list `[0, 1]` would give. -/
theorem claim5_counterexample :
    Sign.Round1.proceed c5St1 c5In1 [2] = some (.ok (c5St2, c5Msgs)) ∧
    c5St2.parties = [1, 2] ∧
    ((c5In1.into_vec_including_me c5St1.mybroadcast).map (fun m => m.index)) = [0, 1] ∧
    Sign.Round5.proceed c5St5 c5In5 =
      .ok ⟨Signature.generate c5St5.vss_sum c5St5.local_sig_vec [1, 2]
        c5St5.tmpkey.public_key⟩ ∧
    Sign.Round5.proceed c5St5 c5In5 ≠
      .ok ⟨Signature.generate c5St5.vss_sum c5St5.local_sig_vec [0, 1]
        c5St5.tmpkey.public_key⟩ := by
  refine ⟨by decide, by decide, by decide, by decide, by decide⟩

/-- C5 witness: the Round1 conjunct applied at a concrete transition. -/
theorem claim5_witness :
    c5St2.parties = ((c5In1.into_vec_including_me c5St1.mybroadcast).map
      (fun m => m.index)).map (fun i => i + 1) :=
  claim5_generate_parties_argument.2.1 c5St1 c5In1 [2] c5St2 c5Msgs (by decide)

/-- C6 (confirmed): in keygen Round1, when the party index is in range, the
store is full, and commitment verification and VSS dealing succeed, the dealt
shares number `n`; proceed emits exactly `n−1` point-to-point messages — for
every `j ∈ {1,…,n}` with `j ≠ party_i` exactly one `Msg` with sender
`party_i`, receiver `some j`, carrying the pair (own VSS scheme, share for
`j`); none is a self- or broadcast message, and the retained self share is
the dealt share at position `party_i − 1`.  If any commitment fails to open,
proceed fails with `Round1(InvalidCom)` and emits no P2P message. -/
theorem claim6_keygen_round1_messages :
    (∀ (st : Keygen.Round1) input coeffs st2 msgs,
      1 ≤ st.party_i → st.party_i ≤ st.n →
      input.my_ind = st.party_i → input.msgs.length + 1 = st.n →
      Keygen.Round1.proceed st input coeffs = some (.ok (st2, msgs)) →
      ∃ secret_shares : List FE,
        st.keys.phase1_verify_com_phase2_distribute ⟨st.t, st.n⟩
          ((input.into_vec_including_me st.mybroadcast).map (fun m => m.decom))
          ((input.into_vec_including_me st.mybroadcast).map (fun m => m.y_i))
          ((input.into_vec_including_me st.mybroadcast).map (fun m => m.comm))
          (((input.into_vec_including_me st.mybroadcast).map (fun m => m.index)).map
            (fun i => i + 1))
          coeffs = .ok (st2.own_vss, secret_shares, st2.index) ∧
        secret_shares.length = st.n ∧
        st2.own_share = secret_shares.getD (st.party_i - 1) 0 ∧
        msgs = pushShares st.party_i st2.own_vss 0 secret_shares ∧
        msgs.length = st.n - 1 ∧
        (∀ m ∈ msgs, m.sender = st.party_i ∧ m.receiver ≠ some st.party_i ∧
          m.receiver ≠ none) ∧
        (∀ j, 1 ≤ j → j ≤ st.n → j ≠ st.party_i →
          msgs.filter (fun m => m.receiver == some j)
            = [⟨st.party_i, some j, (st2.own_vss, secret_shares.getD (j - 1) 0)⟩])) ∧
    (∀ (st : Keygen.Round1) input coeffs,
      ((((input.into_vec_including_me st.mybroadcast).map (fun m => m.comm)).zip
          ((((input.into_vec_including_me st.mybroadcast).map (fun m => m.y_i))).zip
            (((input.into_vec_including_me st.mybroadcast).map (fun m => m.decom))))).all
          (fun p => hashCommitment p.2.1 p.2.2 == p.1.com)) = false →
      Keygen.Round1.proceed st input coeffs = some (.error (.Round1 .InvalidCom))) :=
  ⟨keygenR1_msgs, keygenR1_invalid_com⟩

/-- C6 witness: both branches applied at concrete data — an honest run with
`n = 2` emitting one P2P message, and a tampered commitment failing with
`Round1(InvalidCom)`. -/
theorem claim6_witness :
    c6Msgs.length = c6St1.n - 1 ∧
    Keygen.Round1.proceed c6BadSt1 c6In1 [2] = some (.error (.Round1 .InvalidCom)) := by
  constructor
  · obtain ⟨ss, hcall, hlen, hown, hpush, hlength, hmem, hfilter⟩ :=
      claim6_keygen_round1_messages.1 c6St1 c6In1 [2] c6St2 c6Msgs
        (by decide) (by decide) (by decide) (by decide) (by decide)
    exact hlength
  · exact claim6_keygen_round1_messages.2 c6BadSt1 c6In1 [2] (by decide)

/-- C7 (confirmed): sign Round4's `proceed` builds the synthetic `vss_sum`
from the long-term scheme's parameters and the received commitment points
(own point slotted at this party's position), locally checks
`validate_share_public(G·gamma_i, party_i)` against it, broadcasts exactly
one boolean equal to that check's outcome, and never returns an error. -/
theorem claim7_round4_synthetic_vss (st : Sign.Round4) (input : BroadcastMsgs GE) :
    Sign.Round4.proceed st input = .ok (
      ⟨st.tmpkey, st.local_sig, st.y_vec,
       VerifiableSS.validate_share_public
         ⟨st.private_key.vss_scheme.parameters, input.into_vec_including_me st.comm⟩
         (pointMul st.local_sig.gamma_i curveG) st.party_i,
       st.local_sig_vec,
       ⟨st.private_key.vss_scheme.parameters, input.into_vec_including_me st.comm⟩,
       st.private_key, st.message, st.party_i, st.t, st.n, st.parties⟩,
      [⟨st.party_i, none,
        VerifiableSS.validate_share_public
          ⟨st.private_key.vss_scheme.parameters, input.into_vec_including_me st.comm⟩
          (pointMul st.local_sig.gamma_i curveG) st.party_i⟩]) ∧
    ∀ e, Sign.Round4.proceed st input ≠ .error e := by
  constructor
  · rfl
  · intro e h
    simp [Sign.Round4.proceed] at h

/-- C7 witness: the theorem applied at a concrete Round4 state and input. -/
theorem claim7_witness : (Sign.Round4.proceed c7St4 c7In4).isOk = true := by
  rw [(claim7_round4_synthetic_vss c7St4 c7In4).1]
  rfl

/-- C8 (confirmed): for every `party_i` in `[1, n]`, Round0 of both machines
succeeds and pushes exactly one broadcast message (sender `party_i`, receiver
`none`) whose body is `BroadcastPhase1` holding the hash commitment to the
fresh public point, the decommitment blinding in the same message, the fresh
public point `y_i = G·u`, and index `party_i − 1` (the 0-based index). -/
theorem claim8_round0_broadcast :
    (∀ (st : Keygen.Round0) (u : FE) (blind : Nat), 1 ≤ st.party_i → st.party_i ≤ st.n →
      Keygen.Round0.proceed st u blind = some (.ok (
        ⟨⟨u, pointMul u curveG, st.party_i - 1⟩,
         ⟨⟨hashCommitment (pointMul u curveG) blind⟩, blind, pointMul u curveG,
          st.party_i - 1⟩,
         st.party_i, st.t, st.n, st.parties⟩,
        [⟨st.party_i, none,
          ⟨⟨hashCommitment (pointMul u curveG) blind⟩, blind, pointMul u curveG,
           st.party_i - 1⟩⟩]))) ∧
    (∀ (st : Sign.Round0) (u : FE) (blind : Nat), 1 ≤ st.party_i → st.party_i ≤ st.n →
      Sign.Round0.proceed st u blind = some (.ok (
        ⟨⟨u, pointMul u curveG, st.party_i - 1⟩,
         ⟨⟨hashCommitment (pointMul u curveG) blind⟩, blind, pointMul u curveG,
          st.party_i - 1⟩,
         st.private_key, st.message, st.party_i, st.t, st.n, st.parties⟩,
        [⟨st.party_i, none,
          ⟨⟨hashCommitment (pointMul u curveG) blind⟩, blind, pointMul u curveG,
           st.party_i - 1⟩⟩]))) :=
  ⟨fun st u blind h _ => keygenR0_proceed_eq st u blind h,
   fun st u blind h _ => signR0_proceed_eq st u blind h⟩

/-- C8 witness: both machines' Round0 applied at a concrete in-range state. -/
theorem claim8_witness :
    (Keygen.Round0.proceed c8K0 3 5).isSome = true ∧
    (Sign.Round0.proceed c8S0 3 5).isSome = true := by
  constructor
  · rw [claim8_round0_broadcast.1 c8K0 3 5 (by decide) (by decide)]
    rfl
  · rw [claim8_round0_broadcast.2 c8S0 3 5 (by decide) (by decide)]
    rfl

/-- C9 (confirmed): sign Round3 indexes every dealer's commitment vector at
the fixed position `party_i − 1`; whenever some dealer's vector has length at
most `party_i − 1` the out-of-bounds (panic) branch is taken — `proceed`
returns `none` in the total embedding — and `proceed` succeeds when the
position is within every commitment vector (given a full store and at least
one long-term dealer). -/
theorem claim9_round3_indexing_bounds :
    (∀ (st : Sign.Round3) (input : BroadcastMsgs LocalSig) (v : VerifiableSS),
      1 ≤ st.party_i →
      v ∈ st.private_key.vss_scheme_vec ++ st.tmpkey.vss_scheme_vec →
      v.commitments.length ≤ st.party_i - 1 →
      Sign.Round3.proceed st input = none) ∧
    (∀ (st : Sign.Round3) (input : BroadcastMsgs LocalSig),
      1 ≤ st.party_i → input.my_ind = st.party_i →
      st.party_i - 1 ≤ input.msgs.length →
      st.private_key.vss_scheme_vec ≠ [] →
      (∀ v ∈ st.private_key.vss_scheme_vec, st.party_i - 1 < v.commitments.length) →
      (∀ v ∈ st.tmpkey.vss_scheme_vec, st.party_i - 1 < v.commitments.length) →
      (Sign.Round3.proceed st input).isSome = true) :=
  ⟨fun st input v h1 hv hs => signR3_none_of_short st input h1 v hv hs,
   fun st input h1 h2 h3 h4 h5 h6 => by
     rw [signR3_proceed_eq st input h1 h2 h3 h4 h5 h6]
     rfl⟩

/-- C9 witness: a concrete threshold-1 state with `party_i = 3` hits the
panic branch (commitment vectors have t+1 = 2 entries), while a concrete
in-range state succeeds. -/
theorem claim9_witness :
    Sign.Round3.proceed c9Bad c9BadIn = none ∧
    (Sign.Round3.proceed c9Good c9GoodIn).isSome = true := by
  constructor
  · exact claim9_round3_indexing_bounds.1 c9Bad c9BadIn ⟨⟨1, 2⟩, [3, 5]⟩
      (by decide) (by decide) (by decide)
  · exact claim9_round3_indexing_bounds.2 c9Good c9GoodIn
      (by decide) (by decide) (by decide) (by decide) (by decide) (by decide)

/-- C10 (confirmed): keygen and sign Round0 compute `party_i − 1` with a
`usize` subtraction that underflows for `party_i = 0` — the panic branch is
taken (`none` in the total embedding) instead of an InvalidParameters error —
and both proceeds succeed for every `party_i ≥ 1`. -/
theorem claim10_round0_underflow :
    (∀ (st : Keygen.Round0) (u : FE) (blind : Nat), st.party_i = 0 →
      Keygen.Round0.proceed st u blind = none) ∧
    (∀ (st : Sign.Round0) (u : FE) (blind : Nat), st.party_i = 0 →
      Sign.Round0.proceed st u blind = none) ∧
    (∀ (st : Keygen.Round0) (u : FE) (blind : Nat), 1 ≤ st.party_i →
      (Keygen.Round0.proceed st u blind).isSome = true) ∧
    (∀ (st : Sign.Round0) (u : FE) (blind : Nat), 1 ≤ st.party_i →
      (Sign.Round0.proceed st u blind).isSome = true) :=
  ⟨keygenR0_none, signR0_none,
   fun st u b h => by rw [keygenR0_proceed_eq st u b h]; rfl,
   fun st u b h => by rw [signR0_proceed_eq st u b h]; rfl⟩

/-- C10 witness: `party_i = 0` panics in both machines; `party_i = 1`
succeeds in both. -/
theorem claim10_witness :
    Keygen.Round0.proceed c10K0 3 5 = none ∧
    Sign.Round0.proceed c10S0 3 5 = none ∧
    (Keygen.Round0.proceed c10K0b 3 5).isSome = true ∧
    (Sign.Round0.proceed c10S0b 3 5).isSome = true :=
  ⟨claim10_round0_underflow.1 c10K0 3 5 (by decide),
   claim10_round0_underflow.2.1 c10S0 3 5 (by decide),
   claim10_round0_underflow.2.2.1 c10K0b 3 5 (by decide),
   claim10_round0_underflow.2.2.2 c10S0b 3 5 (by decide)⟩

end MPSchnorr
